import Mathlib

/-!
Verification of the gopulse telemetry library: a shallow embedding of the
worker pool (pool/pool.go), the dispatcher (providers/telemetry_provider),
and the test mailbox (mailbox), with theorems settling the spec claims.
-/

namespace GoPulse

/-! ## Worker pool (pool/pool.go)

The pool is modelled as a small-step transition system.  Jobs are named by
natural-number identifiers; the behaviour of a job (whether its body panics)
is given by an environment `outcome : Nat -> JobOutcome`.  The state tracks
the buffered jobs channel as a FIFO list, the cancellation flag of the
context, the status of each worker goroutine, and ghost histories of the
jobs accepted by Submit, picked up by a worker, and run to completion.
-/

abbrev JobId := Nat

/-- The behaviour of a job body when it is executed: it either returns
normally or panics with a fault value. -/
inductive JobOutcome where
  | ok
  | panics (fault : Nat)
deriving DecidableEq, Repr

/-- Status of one worker goroutine: `idle` is in the loop with a select
case ready (or about to enter select), `parked` is blocked in the select
waiting on the jobs channel receive and `ctx.Done()`, `running` is
executing a job body, `exited` has returned (its deferred `wg.Done()` has
run). -/
inductive WStatus where
  | idle
  | parked
  | running (j : JobId)
  | exited
deriving DecidableEq, Repr

/-- State of a `Pool`: `cap` is the jobs channel buffer size
(`workerChannelBuff`), `cancelled` records whether `p.cancel()` has run,
`queue` is the content of the buffered `jobs` channel, `workers` the status
of each worker goroutine.  `accepted`, `started`, `completed` and `faults`
are ghost histories; `stopReturned` records that `Stop()` has returned
(i.e. `p.wg.Wait()` has unblocked). -/
structure PoolState where
  cap : Nat
  cancelled : Bool
  queue : List JobId
  workers : List WStatus
  accepted : List JobId
  started : List JobId
  completed : List JobId
  faults : List (JobId × Nat)
  stopReturned : Bool
deriving DecidableEq, Repr

/-- The index of a worker blocked on a receive from the jobs channel, if
any (a channel send prefers a waiting receiver over the buffer). -/
def parkedIdx (ws : List WStatus) : Option Nat :=
  ws.findIdx? (fun w => w == WStatus.parked)

/-- `Submit` (pool.go lines 39-55): returns false if the context is
cancelled; otherwise the `select` tries the channel send, which succeeds
by direct handoff when a worker is parked on the receive (the only way an
unbuffered channel accepts), or by enqueuing when the buffer has room;
otherwise the default branch returns false (pool full). -/
def Submit (s : PoolState) (j : JobId) : Bool × PoolState :=
  if s.cancelled then (false, s)
  else
    match parkedIdx s.workers with
    | some i =>
        (true, { s with workers := s.workers.set i (.running j),
                        accepted := s.accepted ++ [j], started := s.started ++ [j] })
    | none =>
        if s.queue.length < s.cap then
          (true, { s with queue := s.queue ++ [j], accepted := s.accepted ++ [j] })
        else (false, s)

/-- Initial state after `NewPool(workers, buff)` and `StartWorkers()`:
fresh context, empty channel, `n` idle workers. -/
def initPool (cap n : Nat) : PoolState :=
  { cap := cap, cancelled := false, queue := [], workers := List.replicate n .idle,
    accepted := [], started := [], completed := [], faults := [], stopReturned := false }

/-- One interleaving step of the pool system.
`submit` is a call to `Submit`; `cancel` is the `p.cancel()` half of
`Stop()`; `workerExit` is a worker selecting the `ctx.Done()` branch;
`workerPark` is a worker blocking in the select (no case ready: queue
empty, context live); `workerWake` is a parked worker waking on
`ctx.Done()` and returning; `workerTake` is a worker receiving a job from
the channel buffer; `workerFinish` is the job body running to completion
(with `recover()` swallowing a panic), after which the worker exits if
the context was cancelled (`ctx.Err() != nil` check) and otherwise loops;
`stopReturn` is `p.wg.Wait()` unblocking once every worker has exited. -/
inductive Step (outcome : JobId → JobOutcome) : PoolState → PoolState → Prop where
  | submit (s : PoolState) (j : JobId) :
      Step outcome s (Submit s j).2
  | cancel (s : PoolState) :
      Step outcome s { s with cancelled := true }
  | workerExit (s : PoolState) (i : Nat)
      (h : s.workers[i]? = some .idle) (hc : s.cancelled = true) :
      Step outcome s { s with workers := s.workers.set i .exited }
  | workerPark (s : PoolState) (i : Nat)
      (h : s.workers[i]? = some .idle) (hq : s.queue = [])
      (hc : s.cancelled = false) :
      Step outcome s { s with workers := s.workers.set i .parked }
  | workerWake (s : PoolState) (i : Nat)
      (h : s.workers[i]? = some .parked) (hc : s.cancelled = true) :
      Step outcome s { s with workers := s.workers.set i .exited }
  | workerTake (s : PoolState) (i : Nat) (j : JobId) (rest : List JobId)
      (h : s.workers[i]? = some .idle) (hq : s.queue = j :: rest) :
      Step outcome s { s with workers := s.workers.set i (.running j),
                              queue := rest, started := s.started ++ [j] }
  | workerFinish (s : PoolState) (i : Nat) (j : JobId)
      (h : s.workers[i]? = some (.running j)) :
      Step outcome s { s with
        workers := s.workers.set i (if s.cancelled then .exited else .idle),
        completed := s.completed ++ [j],
        faults := s.faults ++ (match outcome j with
          | .ok => []
          | .panics f => [(j, f)]) }
  | stopReturn (s : PoolState)
      (hc : s.cancelled = true)
      (hall : ∀ (i : Nat) (w : WStatus), s.workers[i]? = some w → w = WStatus.exited) :
      Step outcome s { s with stopReturned := true }

/-- Reachability: reflexive-transitive closure of `Step`. -/
def Reach (outcome : JobId → JobOutcome) : PoolState → PoolState → Prop :=
  Relation.ReflTransGen (Step outcome)

/-! ## Values and Go maps

Measurement and metadata maps are `map[string]interface{}` in Go: we embed
the values used by the library as `Value` and a map as an association list
whose lookup ignores order and whose assignment overwrites. -/

/-- An `interface\x7b\x7d` value as used by the library. -/
inductive Value where
  | vInt (n : Int)
  | vStr (s : String)
  | vBool (b : Bool)
  | vNil
deriving DecidableEq, Repr

/-- A Go `map[string]interface\x7b\x7d`. -/
abbrev GoMap := List (String × Value)

/-- Go map read `m[k]` (the `, ok` form distinguishes `none`). -/
def mapGet (m : GoMap) (k : String) : Option Value :=
  (m.find? (fun p => p.1 == k)).map (fun p => p.2)

/-- Go map assignment `m[k] = v`: overwrites any previous entry for `k`. -/
def mapSet (m : GoMap) (k : String) (v : Value) : GoMap :=
  m.filter (fun p => p.1 ≠ k) ++ [(k, v)]

/-- The key set of a Go map. -/
def mapKeys (m : GoMap) : List String := m.map (fun p => p.1)

/-! ## Handlers and the registry (telemetry_handler.go, providers)

A callback is an arbitrary side-effecting function; the embedding records
its observable interaction with the dispatcher: the invocation it receives
and whether its body panics. -/

/-- Behaviour of one callback body: return normally or panic. -/
inductive CallBehavior where
  | ok
  | panics (fault : Value)
deriving DecidableEq, Repr

/-- `EventRegistrar`: an (event name, callback) binding; the callback is
abstracted by its behaviour. -/
structure EventRegistrar where
  Event : String
  behaviour : CallBehavior
deriving DecidableEq, Repr

/-- A `TelemetryHandlerInterface` implementor: stable `id`, bindings list
(`AttachedHandlers()`), opaque `config` value. -/
structure Handler where
  id : String
  attachedHandlers : List EventRegistrar
  config : Value
deriving DecidableEq, Repr

/-- The registry `t.handlers : map[string]TelemetryHandlerInterface`,
keyed by handler identity. -/
abbrev RegMap := List (String × Handler)

/-- Registry read by identity. -/
def regGet (reg : RegMap) (k : String) : Option Handler :=
  (reg.find? (fun p => p.1 == k)).map (fun p => p.2)

/-- Registry map assignment `t.handlers[h.ID()] = h`. -/
def regSet (reg : RegMap) (k : String) (h : Handler) : RegMap :=
  reg.filter (fun p => p.1 ≠ k) ++ [(k, h)]

/-- Registry `delete(t.handlers, h.ID())`. -/
def regDelete (reg : RegMap) (k : String) : RegMap :=
  reg.filter (fun p => p.1 ≠ k)

/-- `AddHandlers(handlers...)`: registers each handler under its identity
(providers lines 45-55). -/
def AddHandlers (reg : RegMap) (hs : List Handler) : RegMap :=
  hs.foldl (fun r h => regSet r h.id h) reg

/-- `RemoveHandlers(handlers...)`: unregisters each handler by identity
(providers lines 57-66). -/
def RemoveHandlers (reg : RegMap) (hs : List Handler) : RegMap :=
  hs.foldl (fun r h => regDelete r h.id) reg

/-- `executableEvent`: the resolved (handler id, callback, config) triple
built by `getEventFunc`. -/
structure ExecutableEvent where
  id : String
  behaviour : CallBehavior
  config : Value
deriving DecidableEq, Repr

/-- `getEventFunc(event)` (providers lines 137-155): iterate every
registered handler and every binding it owns, keeping exactly those whose
`Event` field equals the triggered name. -/
def getEventFunc (handlers : List Handler) (event : String) : List ExecutableEvent :=
  handlers.flatMap (fun h =>
    (h.attachedHandlers.filter (fun r => r.Event = event)).map
      (fun r => { id := h.id, behaviour := r.behaviour, config := h.config }))

/-- The record of one callback invocation as performed by
`executeHandlerSafely`: the arguments the callback received and the fault
its body raised, if any (recovered by the deferred handler). -/
structure Invocation where
  id : String
  event : String
  measurement : GoMap
  metadata : GoMap
  config : Value
  recovered : Option Value
deriving DecidableEq, Repr

/-- `executeHandlerSafely` (providers lines 174-191): runs the callback
with the event name, the two payload maps and the owning handler's config;
a panic in the body is recovered and logged, never propagated. -/
def executeHandlerSafely (e : ExecutableEvent) (event : String)
    (measurement metadata : GoMap) : Invocation :=
  { id := e.id, event := event, measurement := measurement, metadata := metadata,
    config := e.config,
    recovered := match e.behaviour with
      | .ok => none
      | .panics f => some f }

/-- Dispatch configuration (telemetry_config.go). -/
structure TelemetryConfig where
  AllowConcurrentExecution : Bool
  ConcurrentPoolSize : Nat
  ConcurrentBufferSize : Nat
deriving DecidableEq, Repr

/-- The observable outcome of one `TriggerEvent` call: the invocations run
synchronously on the caller's thread, the closures handed to
`pool.Submit` in concurrent mode, and the error returned to the caller. -/
structure TriggerResult where
  syncInvocations : List Invocation
  submittedJobs : List ExecutableEvent
  error : Option String
deriving DecidableEq, Repr

/-- `executeEventFuncs` (providers lines 158-171): for each resolved
binding, submit to the pool when concurrent execution is configured,
otherwise run `executeHandlerSafely` on the caller's thread. -/
def executeEventFuncs (cfg : TelemetryConfig) (eventFuncs : List ExecutableEvent)
    (event : String) (measurement metadata : GoMap) : TriggerResult :=
  if cfg.AllowConcurrentExecution then
    { syncInvocations := [], submittedJobs := eventFuncs, error := none }
  else
    { syncInvocations := eventFuncs.map (fun e => executeHandlerSafely e event measurement metadata),
      submittedJobs := [], error := none }

/-- `TriggerEvent` (providers lines 68-84): resolve the bindings matching
the name; if none match return nil immediately; otherwise execute them. -/
def TriggerEvent (cfg : TelemetryConfig) (reg : RegMap) (event : String)
    (measurement metadata : GoMap) : TriggerResult :=
  let eventFuncs := getEventFunc (reg.map (fun p => p.2)) event
  if eventFuncs.length = 0 then
    { syncInvocations := [], submittedJobs := [], error := none }
  else
    executeEventFuncs cfg eventFuncs event measurement metadata

/-! ## TriggerSpan (providers lines 86-132)

The span body (`SpanFunc`) runs on the caller's thread; it either returns
a quadruple or panics.  The wall-clock readings `time.Now().UnixMilli()`
are explicit inputs (`startTime` before the body, `endTime` after it,
`panicTime` inside the deferred recovery), as is the `debug.Stack()`
string. -/

/-- Behaviour of a `SpanFunc[T]` body.  The returned measurement map may
be `nil` (`none`): a Go `map[string]interface\x7b\x7d` value that no
`make` ever produced, legal to return and read but not to assign into. -/
inductive SpanBehavior (α : Type) where
  | returns (result : α) (err : Option String) (measurement : Option GoMap)
      (metadata : GoMap)
  | panics (fault : Value)
deriving DecidableEq

/-- Outcome of `TriggerSpan` for its caller: a normal (result, error)
return, or the re-raised fault. -/
inductive SpanOutcome (α : Type) where
  | normal (result : α) (err : Option String)
  | panicked (fault : Value)
deriving DecidableEq

/-- The Go runtime error raised by `spanMeasurement["duration"] = duration`
when the span body returned a nil measurement map. -/
def nilMapFault : Value := .vStr "assignment to entry in nil map"

/-- One derived event as fired through `TriggerEvent`. -/
structure FiredEvent where
  name : String
  measurement : GoMap
  metadata : GoMap
deriving DecidableEq, Repr

/-- `TriggerSpan`: fires `event ++ ".start"` with measurement
start_time, runs the body; on normal return with a non-nil measurement
map, augments the body's own measurement map with `duration` and
`end_time` and fires `event ++ ".end"` with the body's metadata,
returning (result, err); when the body returned a nil measurement map,
the assignment `spanMeasurement["duration"] = duration` (line 123)
panics with a runtime error, which the deferred recovery treats like any
other fault; on a panic the deferred recovery fires `event ++ ".panic"`
with empty measurement and metadata error, errorTime, stackTrace, then
re-raises the same fault.  Returns the fired-event trace and the
caller-visible outcome. -/
def TriggerSpan {α : Type} (event : String) (metadata : GoMap)
    (spanFunc : SpanBehavior α) (startTime endTime panicTime : Int)
    (stackTrace : String) : List FiredEvent × SpanOutcome α :=
  let startEv : FiredEvent :=
    { name := event ++ ".start", measurement := [("start_time", .vInt startTime)],
      metadata := metadata }
  let panicEv : Value → FiredEvent := fun r =>
    { name := event ++ ".panic", measurement := [],
      metadata := [("error", r), ("errorTime", .vInt panicTime),
                   ("stackTrace", .vStr stackTrace)] }
  match spanFunc with
  | .panics r => ([startEv, panicEv r], .panicked r)
  | .returns result err mOpt d =>
      match mOpt with
      | none => ([startEv, panicEv nilMapFault], .panicked nilMapFault)
      | some m =>
          let spanMeasurement :=
            mapSet (mapSet m "duration" (.vInt (endTime - startTime)))
              "end_time" (.vInt endTime)
          ([startEv,
            { name := event ++ ".end", measurement := spanMeasurement, metadata := d }],
           .normal result err)

/-! ## Mailbox (mailbox package)

`Mailer` keeps `mailbox : map[string][]MailData`; the handler built by
`buildHandler` appends the delivered (measurement, metadata) pair to the
log of the delivered event's name.  `AssertReceive` polls the mailbox
until the timer fires: it is modelled over the list of mailbox states the
loop observes before the timeout, one per iteration. -/

/-- `MailData`: one captured delivery. -/
structure MailData where
  Measurement : GoMap
  Metadata : GoMap
deriving DecidableEq, Repr

/-- The `mailbox` field: event name to ordered log of captured deliveries. -/
abbrev MailboxMap := List (String × List MailData)

/-- Mailbox read `m.mailbox[event]` with the `, ok` form. -/
def mailboxGet (mb : MailboxMap) (event : String) : Option (List MailData) :=
  (mb.find? (fun p => p.1 == event)).map (fun p => p.2)

/-- Mailbox map assignment. -/
def mailboxSet (mb : MailboxMap) (event : String) (box : List MailData) : MailboxMap :=
  mb.filter (fun p => p.1 ≠ event) ++ [(event, box)]

/-- The handler closure built by `buildHandler` (mailbox lines 116-136):
on delivery of an event, fetch its log (empty when absent), append the
(measurement, metadata) pair, store it back. -/
def deliver (mb : MailboxMap) (event : String) (measurement metadata : GoMap) : MailboxMap :=
  let box := (mailboxGet mb event).getD []
  mailboxSet mb event (box ++ [{ Measurement := measurement, Metadata := metadata }])

/-- A sequence of deliveries applied in order. -/
def deliverAll (mb : MailboxMap) (ds : List (String × GoMap × GoMap)) : MailboxMap :=
  ds.foldl (fun acc d => deliver acc d.1 d.2.1 d.2.2) mb

/-- The log recorded for a name (empty when the name was never delivered). -/
def logOf (mb : MailboxMap) (event : String) : List MailData :=
  (mailboxGet mb event).getD []

/-- A mailbox predicate `MailboxFunc`. -/
abbrev MailboxFunc := String → List MailData → Bool

/-- One iteration of the `AssertReceive` loop body on an observed mailbox
state: `continue` (false) when the event has no entry, otherwise the
predicate's verdict on the current snapshot. -/
def checkOnce (mb : MailboxMap) (event : String) (p : MailboxFunc) : Bool :=
  match mailboxGet mb event with
  | none => false
  | some box => p event box

/-- `AssertReceive` (mailbox lines 54-80): repeatedly check the mailbox
until the timer fires; `obs` is the sequence of mailbox states the loop
reads before the timeout, and the call returns true as soon as one
satisfies the predicate. -/
def AssertReceive (obs : List MailboxMap) (event : String) (p : MailboxFunc) : Bool :=
  obs.any (fun mb => checkOnce mb event p)

/-- `AssertReceived` (mailbox lines 82-98): one immediate check. -/
def AssertReceived (mb : MailboxMap) (event : String) (p : MailboxFunc) : Bool :=
  checkOnce mb event p

/-- `RefuteReceive` (mailbox lines 100-102). -/
def RefuteReceive (obs : List MailboxMap) (event : String) (p : MailboxFunc) : Bool :=
  !(AssertReceive obs event p)

/-- `RefuteReceived` (mailbox lines 104-106). -/
def RefuteReceived (mb : MailboxMap) (event : String) (p : MailboxFunc) : Bool :=
  !(AssertReceived mb event p)

/-! ## Association-map lemmas

The three Go maps of the system (payload maps, the handler registry, the
mailbox log) are all string-keyed association lists with overwrite
assignment; these lemmas give their read-over-write behaviour. -/

theorem assoc_find?_set_self {β : Type} (m : List (String × β)) (k : String) (b : β) :
    (m.filter (fun p => p.1 ≠ k) ++ [(k, b)]).find? (fun p => p.1 == k) = some (k, b) := by
  rw [List.find?_append]
  have h1 : (m.filter (fun p => p.1 ≠ k)).find? (fun p => p.1 == k) = none := by
    rw [List.find?_filter, List.find?_eq_none]
    intro x _ hx
    simp only [Bool.and_eq_true, decide_eq_true_eq, beq_iff_eq] at hx
    exact hx.1 hx.2
  rw [h1]
  simp

theorem assoc_find?_set_ne {β : Type} (m : List (String × β)) (k k2 : String) (b : β)
    (h : k2 ≠ k) :
    (m.filter (fun p => p.1 ≠ k) ++ [(k, b)]).find? (fun p => p.1 == k2)
      = m.find? (fun p => p.1 == k2) := by
  rw [List.find?_append, List.find?_filter]
  have h2 : ([(k, b)] : List (String × β)).find? (fun p => p.1 == k2) = none := by
    rw [List.find?_cons_of_neg _ (by simpa using Ne.symm h)]
    rfl
  rw [h2]
  have h3 : (fun (a : String × β) => decide (decide (a.1 ≠ k) = true ∧ (a.1 == k2) = true))
      = fun a => a.1 == k2 := by
    funext a
    by_cases hk : a.1 = k2
    · simp [hk, h]
    · simp [hk]
  rw [h3]
  cases m.find? (fun p => p.1 == k2) <;> rfl

theorem assoc_find?_delete_self {β : Type} (m : List (String × β)) (k : String) :
    (m.filter (fun p => p.1 ≠ k)).find? (fun p => p.1 == k) = none := by
  rw [List.find?_filter, List.find?_eq_none]
  intro x _ hx
  simp only [Bool.and_eq_true, decide_eq_true_eq, beq_iff_eq] at hx
  exact hx.1 hx.2

theorem assoc_find?_delete_ne {β : Type} (m : List (String × β)) (k k2 : String)
    (h : k2 ≠ k) :
    (m.filter (fun p => p.1 ≠ k)).find? (fun p => p.1 == k2)
      = m.find? (fun p => p.1 == k2) := by
  rw [List.find?_filter]
  have h3 : (fun (a : String × β) => decide (decide (a.1 ≠ k) = true ∧ (a.1 == k2) = true))
      = fun a => a.1 == k2 := by
    funext a
    by_cases hk : a.1 = k2
    · simp [hk, h]
    · simp [hk]
  rw [h3]

theorem mapGet_set_self (m : GoMap) (k : String) (v : Value) :
    mapGet (mapSet m k v) k = some v := by
  unfold mapGet mapSet
  rw [assoc_find?_set_self]
  rfl

theorem mapGet_set_ne (m : GoMap) (k k2 : String) (v : Value) (h : k2 ≠ k) :
    mapGet (mapSet m k v) k2 = mapGet m k2 := by
  unfold mapGet mapSet
  rw [assoc_find?_set_ne _ _ _ _ h]

theorem regGet_set_self (reg : RegMap) (k : String) (h : Handler) :
    regGet (regSet reg k h) k = some h := by
  unfold regGet regSet
  rw [assoc_find?_set_self]
  rfl

theorem regGet_set_ne (reg : RegMap) (k k2 : String) (h : Handler) (hne : k2 ≠ k) :
    regGet (regSet reg k h) k2 = regGet reg k2 := by
  unfold regGet regSet
  rw [assoc_find?_set_ne _ _ _ _ hne]

theorem regGet_delete_self (reg : RegMap) (k : String) :
    regGet (regDelete reg k) k = none := by
  unfold regGet regDelete
  rw [assoc_find?_delete_self]
  rfl

theorem regGet_delete_ne (reg : RegMap) (k k2 : String) (hne : k2 ≠ k) :
    regGet (regDelete reg k) k2 = regGet reg k2 := by
  unfold regGet regDelete
  rw [assoc_find?_delete_ne _ _ _ hne]

theorem mailboxGet_set_self (mb : MailboxMap) (k : String) (box : List MailData) :
    mailboxGet (mailboxSet mb k box) k = some box := by
  unfold mailboxGet mailboxSet
  rw [assoc_find?_set_self]
  rfl

theorem mailboxGet_set_ne (mb : MailboxMap) (k k2 : String) (box : List MailData)
    (hne : k2 ≠ k) :
    mailboxGet (mailboxSet mb k box) k2 = mailboxGet mb k2 := by
  unfold mailboxGet mailboxSet
  rw [assoc_find?_set_ne _ _ _ _ hne]

/-! ## Registry operation sequences -/

/-- A single registry mutation: one handler argument of an `AddHandlers`
or `RemoveHandlers` call. -/
inductive RegOp where
  | add (h : Handler)
  | remove (h : Handler)

/-- The registry mutation a single operation performs. -/
def applyRegOp (reg : RegMap) : RegOp → RegMap
  | .add h => regSet reg h.id h
  | .remove h => regDelete reg h.id

/-- A sequence of registry mutations applied in order. -/
def applyRegOps (reg : RegMap) (ops : List RegOp) : RegMap :=
  ops.foldl applyRegOp reg

/-- The handler identity an operation touches. -/
def opId : RegOp → String
  | .add h => h.id
  | .remove h => h.id

/-- Spec-side description of last-write-wins: the most recent operation in
the sequence touching identity `i`, if any. -/
def lastRegWrite (i : String) : List RegOp → Option RegOp
  | [] => none
  | o :: rest =>
      match lastRegWrite i rest with
      | some r => some r
      | none => if opId o = i then some o else none

/-- The binding the spec predicts for identity `i` given the most recent
operation touching it. -/
def lookupAfter (reg : RegMap) (i : String) : Option RegOp → Option Handler
  | some (.add h) => some h
  | some (.remove _) => none
  | none => regGet reg i

theorem applyRegOps_lookup (ops : List RegOp) (reg : RegMap) (i : String) :
    regGet (applyRegOps reg ops) i = lookupAfter reg i (lastRegWrite i ops) := by
  induction ops generalizing reg with
  | nil => rfl
  | cons o rest ih =>
      show regGet (applyRegOps (applyRegOp reg o) rest) i = _
      rw [ih]
      cases hlast : lastRegWrite i rest with
      | some r =>
          simp only [lastRegWrite, hlast]
          cases r <;> rfl
      | none =>
          simp only [lastRegWrite, hlast, lookupAfter]
          by_cases hid : opId o = i
          · cases o with
            | add h =>
                have hh : h.id = i := hid
                simp only [applyRegOp, hid, if_pos hid, lookupAfter]
                rw [← hh, regGet_set_self]
                simp
            | remove h =>
                have hh : h.id = i := hid
                simp only [applyRegOp, hid, if_pos hid, lookupAfter]
                rw [← hh, regGet_delete_self]
                simp
          · cases o with
            | add h =>
                have hh : i ≠ h.id := fun he => hid he.symm
                simp only [applyRegOp, if_neg hid, lookupAfter]
                rw [regGet_set_ne _ _ _ _ hh]
            | remove h =>
                have hh : i ≠ h.id := fun he => hid he.symm
                simp only [applyRegOp, if_neg hid, lookupAfter]
                rw [regGet_delete_ne _ _ _ hh]

/-- C6: for every sequence of addHandlers/removeHandlers calls, the
registry maps each handler identity to exactly the handler most recently
added under that identity (re-adding under the same identity replaces the
prior binding set), and removeHandlers deletes the entry for that
identity; variadic calls decompose into their per-handler operations. -/
theorem registry_last_write_wins :
    (∀ (reg : RegMap) (ops : List RegOp) (i : String),
        regGet (applyRegOps reg ops) i = lookupAfter reg i (lastRegWrite i ops)) ∧
    (∀ (reg : RegMap) (hs : List Handler),
        AddHandlers reg hs = applyRegOps reg (hs.map RegOp.add)) ∧
    (∀ (reg : RegMap) (hs : List Handler),
        RemoveHandlers reg hs = applyRegOps reg (hs.map RegOp.remove)) ∧
    (∀ (reg : RegMap) (h : Handler), regGet (AddHandlers reg [h]) h.id = some h) ∧
    (∀ (reg : RegMap) (h : Handler), regGet (RemoveHandlers reg [h]) h.id = none) := by
  refine ⟨fun reg ops i => applyRegOps_lookup ops reg i, ?_, ?_, ?_, ?_⟩
  · intro reg hs
    simp [AddHandlers, applyRegOps, List.foldl_map]
    rfl
  · intro reg hs
    simp [RemoveHandlers, applyRegOps, List.foldl_map]
    rfl
  · intro reg h
    show regGet (regSet reg h.id h) h.id = some h
    exact regGet_set_self reg h.id h
  · intro reg h
    show regGet (regDelete reg h.id) h.id = none
    exact regGet_delete_self reg h.id

/-! ## Mailbox log lemmas -/

theorem logOf_deliver_self (mb : MailboxMap) (e : String) (m d : GoMap) :
    logOf (deliver mb e m d) e = logOf mb e ++ [{ Measurement := m, Metadata := d }] := by
  unfold logOf deliver
  rw [mailboxGet_set_self]
  rfl

theorem logOf_deliver_ne (mb : MailboxMap) (e : String) (m d : GoMap) (name : String)
    (h : name ≠ e) :
    logOf (deliver mb e m d) name = logOf mb name := by
  unfold logOf deliver
  rw [mailboxGet_set_ne _ _ _ _ h]

theorem logOf_deliverAll (ds : List (String × GoMap × GoMap)) (mb : MailboxMap)
    (name : String) :
    logOf (deliverAll mb ds) name
      = logOf mb name ++ (ds.filter (fun x => x.1 = name)).map
          (fun x => { Measurement := x.2.1, Metadata := x.2.2 }) := by
  induction ds generalizing mb with
  | nil => simp [deliverAll, logOf]
  | cons dd rest ih =>
      show logOf (deliverAll (deliver mb dd.1 dd.2.1 dd.2.2) rest) name = _
      rw [ih]
      by_cases h : dd.1 = name
      · subst h
        rw [logOf_deliver_self]
        simp [List.filter_cons]
      · rw [logOf_deliver_ne _ _ _ _ _ (fun he => h he.symm)]
        simp [List.filter_cons, h]

/-- C8: the log a Mailbox records under each event name is exactly the
sequence of (measurement, metadata) pairs delivered for that name, in
delivery order, with no duplication and no gaps; each delivery appends
exactly one entry to that name's log and leaves every other name's log
unchanged. -/
theorem mailbox_log_exact :
    (∀ (ds : List (String × GoMap × GoMap)) (name : String),
        logOf (deliverAll [] ds) name
          = (ds.filter (fun x => x.1 = name)).map
              (fun x => { Measurement := x.2.1, Metadata := x.2.2 })) ∧
    (∀ (mb : MailboxMap) (e : String) (m d : GoMap),
        logOf (deliver mb e m d) e
          = logOf mb e ++ [{ Measurement := m, Metadata := d }]) ∧
    (∀ (mb : MailboxMap) (e : String) (m d : GoMap) (name : String), name ≠ e →
        logOf (deliver mb e m d) name = logOf mb name) := by
  refine ⟨fun ds name => ?_, logOf_deliver_self, logOf_deliver_ne⟩
  rw [logOf_deliverAll]
  rfl

theorem mailbox_log_exact_witness :
    ("x" : String) ≠ "y" ∧
    logOf (deliver [("y", [])] "y" [] [("k", Value.vInt 1)]) "x"
      = logOf ([("y", [])] : MailboxMap) "x" :=
  ⟨by decide, mailbox_log_exact.2.2 [("y", [])] "y" [] [("k", Value.vInt 1)] "x" (by decide)⟩

/-! ## Example fixtures used by witnesses -/

/-- A concrete handler bound to the single event name "a.b". -/
def exHandlerA : Handler :=
  { id := "log", attachedHandlers := [{ Event := "a.b", behaviour := .ok }],
    config := .vStr "cfg" }

/-- A concrete registry holding `exHandlerA`. -/
def exReg : RegMap := [("log", exHandlerA)]

/-- The default synchronous configuration (`NewTelemetryConfig()`). -/
def cfgSync : TelemetryConfig :=
  { AllowConcurrentExecution := false, ConcurrentPoolSize := 0, ConcurrentBufferSize := 0 }

/-- A concurrent configuration. -/
def cfgConc : TelemetryConfig :=
  { AllowConcurrentExecution := true, ConcurrentPoolSize := 2, ConcurrentBufferSize := 4 }

/-- C9: triggerEvent on an event name with zero matching registered
bindings returns success (a nil error) and has no observable side effect:
no callback is invoked and nothing is submitted to the pool. -/
theorem triggerEvent_no_match_noop (cfg : TelemetryConfig) (reg : RegMap) (event : String)
    (measurement metadata : GoMap)
    (h : getEventFunc (reg.map (fun p => p.2)) event = []) :
    TriggerEvent cfg reg event measurement metadata
      = { syncInvocations := [], submittedJobs := [], error := none } := by
  simp [TriggerEvent, h]

theorem triggerEvent_no_match_noop_witness :
    getEventFunc (exReg.map (fun p => p.2)) "zzz" = [] ∧
    TriggerEvent cfgSync exReg "zzz" [] []
      = { syncInvocations := [], submittedJobs := [], error := none } :=
  ⟨by decide, triggerEvent_no_match_noop cfgSync exReg "zzz" [] [] (by decide)⟩

/-- C10: refuteReceive returns the logical negation of assertReceive, and
refuteReceived returns the logical negation of assertReceived, for every
event name, timeout window (sequence of observed mailbox states) and
predicate. -/
theorem refute_negates_assert (obs : List MailboxMap) (mb : MailboxMap) (event : String)
    (p : MailboxFunc) :
    RefuteReceive obs event p = !(AssertReceive obs event p) ∧
    RefuteReceived mb event p = !(AssertReceived mb event p) ∧
    AssertReceive obs event p = !(RefuteReceive obs event p) ∧
    AssertReceived mb event p = !(RefuteReceived mb event p) := by
  refine ⟨rfl, rfl, ?_, ?_⟩ <;> simp [RefuteReceive, RefuteReceived]

/-! ## Dispatch resolution -/

theorem length_getEventFunc (handlers : List Handler) (name : String) :
    (getEventFunc handlers name).length
      = (handlers.map
          (fun h => (h.attachedHandlers.filter (fun r => r.Event = name)).length)).sum := by
  unfold getEventFunc
  induction handlers with
  | nil => rfl
  | cons h hs ih => simp [List.flatMap_cons, ih]

/-- C7: triggerEvent invokes exactly those callbacks whose registered
event string equals the triggered name by exact string match, one
invocation per matching binding across all handlers, each invocation
receiving its owning handler's config value unchanged; under synchronous
configuration they run on the caller's thread, under concurrent
configuration each is submitted to the pool. -/
theorem triggerEvent_exact_match_dispatch :
    (∀ (handlers : List Handler) (name : String) (e : ExecutableEvent),
        e ∈ getEventFunc handlers name ↔
          ∃ h, h ∈ handlers ∧ ∃ r, r ∈ h.attachedHandlers ∧ r.Event = name ∧
            e = { id := h.id, behaviour := r.behaviour, config := h.config }) ∧
    (∀ (handlers : List Handler) (name : String),
        (getEventFunc handlers name).length
          = (handlers.map
              (fun h => (h.attachedHandlers.filter (fun r => r.Event = name)).length)).sum) ∧
    (∀ (cfg : TelemetryConfig) (reg : RegMap) (name : String) (m d : GoMap),
        cfg.AllowConcurrentExecution = false →
        (TriggerEvent cfg reg name m d).syncInvocations
          = (getEventFunc (reg.map (fun p => p.2)) name).map
              (fun e => executeHandlerSafely e name m d) ∧
        (TriggerEvent cfg reg name m d).submittedJobs = []) ∧
    (∀ (cfg : TelemetryConfig) (reg : RegMap) (name : String) (m d : GoMap),
        cfg.AllowConcurrentExecution = true →
        (TriggerEvent cfg reg name m d).submittedJobs
          = getEventFunc (reg.map (fun p => p.2)) name ∧
        (TriggerEvent cfg reg name m d).syncInvocations = []) ∧
    (∀ (e : ExecutableEvent) (name : String) (m d : GoMap),
        (executeHandlerSafely e name m d).config = e.config ∧
        (executeHandlerSafely e name m d).event = name ∧
        (executeHandlerSafely e name m d).measurement = m ∧
        (executeHandlerSafely e name m d).metadata = d) := by
  refine ⟨?_, length_getEventFunc, ?_, ?_, fun e name m d => ⟨rfl, rfl, rfl, rfl⟩⟩
  · intro handlers name e
    unfold getEventFunc
    simp only [List.mem_flatMap, List.mem_map, List.mem_filter, decide_eq_true_eq]
    constructor
    · rintro ⟨h, hmem, r, ⟨hr, hev⟩, heq⟩
      exact ⟨h, hmem, r, hr, hev, heq.symm⟩
    · rintro ⟨h, hmem, r, hr, hev, heq⟩
      exact ⟨h, hmem, r, ⟨hr, hev⟩, heq.symm⟩
  · intro cfg reg name m d hc
    by_cases h0 : (getEventFunc (reg.map (fun p => p.2)) name).length = 0
    · have he : getEventFunc (reg.map (fun p => p.2)) name = [] :=
        List.length_eq_zero.mp h0
      simp [TriggerEvent, he]
    · simp [TriggerEvent, executeEventFuncs, h0, hc]
  · intro cfg reg name m d hc
    by_cases h0 : (getEventFunc (reg.map (fun p => p.2)) name).length = 0
    · have he : getEventFunc (reg.map (fun p => p.2)) name = [] :=
        List.length_eq_zero.mp h0
      simp [TriggerEvent, he]
    · simp [TriggerEvent, executeEventFuncs, h0, hc]

theorem triggerEvent_exact_match_dispatch_witness :
    cfgSync.AllowConcurrentExecution = false ∧
    cfgConc.AllowConcurrentExecution = true ∧
    (TriggerEvent cfgSync exReg "a.b" [] []).syncInvocations
      = (getEventFunc (exReg.map (fun p => p.2)) "a.b").map
          (fun e => executeHandlerSafely e "a.b" [] []) ∧
    (TriggerEvent cfgConc exReg "a.b" [] []).submittedJobs
      = getEventFunc (exReg.map (fun p => p.2)) "a.b" :=
  ⟨rfl, rfl,
   (triggerEvent_exact_match_dispatch.2.2.1 cfgSync exReg "a.b" [] [] rfl).1,
   (triggerEvent_exact_match_dispatch.2.2.2.1 cfgConc exReg "a.b" [] [] rfl).1⟩

/-! ## Span claims -/

theorem append_ne_of_data_ne (s t u : String) (h : t.data ≠ u.data) :
    s ++ t ≠ s ++ u := by
  intro heq
  apply h
  have hd : s.data ++ t.data = s.data ++ u.data := by
    rw [← String.data_append, ← String.data_append, heq]
  exact List.append_cancel_left hd

/-- C2: on a span body that panics, triggerSpan fires the event name
suffixed ".panic" with metadata holding exactly the keys error, errorTime
and stackTrace, re-raises the same fault to the triggerSpan caller, and
the name suffixed ".end" is never fired on this path. -/
theorem triggerSpan_panic_path (α : Type) (event : String) (metadata : GoMap)
    (fault : Value) (st et pt : Int) (tr : String) :
    (TriggerSpan (α := α) event metadata (.panics fault) st et pt tr).1
      = [{ name := event ++ ".start",
           measurement := [("start_time", .vInt st)], metadata := metadata },
         { name := event ++ ".panic", measurement := [],
           metadata := [("error", fault), ("errorTime", .vInt pt),
                        ("stackTrace", .vStr tr)] }] ∧
    mapKeys [("error", fault), ("errorTime", .vInt pt), ("stackTrace", .vStr tr)]
      = ["error", "errorTime", "stackTrace"] ∧
    (TriggerSpan (α := α) event metadata (.panics fault) st et pt tr).2
      = SpanOutcome.panicked fault ∧
    ∀ e ∈ (TriggerSpan (α := α) event metadata (.panics fault) st et pt tr).1,
      e.name ≠ event ++ ".end" := by
  refine ⟨rfl, rfl, rfl, ?_⟩
  intro e he
  simp only [TriggerSpan, List.mem_cons, List.not_mem_nil, or_false] at he
  rcases he with he | he <;> subst he
  · exact append_ne_of_data_ne event ".start" ".end" (by decide)
  · exact append_ne_of_data_ne event ".panic" ".end" (by decide)

theorem triggerSpan_panic_path_witness :
    (TriggerSpan (α := Nat) "sp" [] (.panics .vNil) 1 2 3 "tr").2
      = SpanOutcome.panicked .vNil ∧
    ∀ e ∈ (TriggerSpan (α := Nat) "sp" [] (.panics .vNil) 1 2 3 "tr").1,
      e.name ≠ "sp" ++ ".end" :=
  ⟨(triggerSpan_panic_path Nat "sp" [] .vNil 1 2 3 "tr").2.2.1,
   (triggerSpan_panic_path Nat "sp" [] .vNil 1 2 3 "tr").2.2.2⟩

/-- C3 counterexample: it is not the case that every span body that
completes normally leads to .start then .end and the body's (result, err)
being returned: a body that returns normally with a nil measurement map
makes the assignment spanMeasurement duration panic (part_003 line 123),
so .panic is fired instead of .end and the runtime fault is re-raised to
the caller. -/
theorem triggerSpan_nil_measurement_panics :
    ¬ (∀ (event : String) (metadata : GoMap) (result : Nat) (err : Option String)
         (bm : Option GoMap) (bd : GoMap) (st et pt : Int) (tr : String),
        ((TriggerSpan (α := Nat) event metadata (.returns result err bm bd)
            st et pt tr).1.map (fun e => e.name))
          = [event ++ ".start", event ++ ".end"] ∧
        (TriggerSpan (α := Nat) event metadata (.returns result err bm bd)
            st et pt tr).2 = SpanOutcome.normal result err) := by
  intro hclaim
  have h := hclaim "sp" [] 1 none none [] 1 4 5 "tr"
  exact absurd h.2 (by decide)

/-- C3 (amended): on a span body that completes normally returning a
non-nil measurement map, triggerSpan fires exactly name ++ ".start" with
measurement start_time before the body, then name ++ ".end" whose
measurement is the body's own measurement map augmented with
duration = end_time - start_time (non-negative when the clock readings
are in order) and end_time, paired with the body's own metadata map, and
returns the body's result and error unchanged; if the normally-returning
body returns a nil measurement map, the duration assignment panics, so
name ++ ".panic" is fired and the runtime fault is re-raised instead. -/
theorem triggerSpan_normal_path (α : Type) (event : String) (metadata : GoMap)
    (result : α) (err : Option String) (bm bd : GoMap) (st et pt : Int) (tr : String)
    (h : st ≤ et) :
    (TriggerSpan (α := α) event metadata (.returns result err (some bm) bd)
        st et pt tr).1
      = [{ name := event ++ ".start",
           measurement := [("start_time", .vInt st)], metadata := metadata },
         { name := event ++ ".end",
           measurement := mapSet (mapSet bm "duration" (.vInt (et - st)))
             "end_time" (.vInt et),
           metadata := bd }] ∧
    mapGet (mapSet (mapSet bm "duration" (.vInt (et - st))) "end_time" (.vInt et))
      "duration" = some (.vInt (et - st)) ∧
    mapGet (mapSet (mapSet bm "duration" (.vInt (et - st))) "end_time" (.vInt et))
      "end_time" = some (.vInt et) ∧
    0 ≤ et - st ∧
    (∀ k, k ≠ "duration" → k ≠ "end_time" →
        mapGet (mapSet (mapSet bm "duration" (.vInt (et - st))) "end_time" (.vInt et)) k
          = mapGet bm k) ∧
    (TriggerSpan (α := α) event metadata (.returns result err (some bm) bd)
        st et pt tr).2 = SpanOutcome.normal result err ∧
    (TriggerSpan (α := α) event metadata (.returns result err none bd) st et pt tr).1
      = [{ name := event ++ ".start",
           measurement := [("start_time", .vInt st)], metadata := metadata },
         { name := event ++ ".panic", measurement := [],
           metadata := [("error", nilMapFault), ("errorTime", .vInt pt),
                        ("stackTrace", .vStr tr)] }] ∧
    (TriggerSpan (α := α) event metadata (.returns result err none bd) st et pt tr).2
      = SpanOutcome.panicked nilMapFault := by
  refine ⟨rfl, ?_, ?_, by omega, ?_, rfl, rfl, rfl⟩
  · rw [mapGet_set_ne _ _ _ _ (by decide), mapGet_set_self]
  · rw [mapGet_set_self]
  · intro k h1 h2
    rw [mapGet_set_ne _ _ _ _ h2, mapGet_set_ne _ _ _ _ h1]

theorem triggerSpan_normal_path_witness :
    (1 : Int) ≤ 4 ∧
    mapGet (mapSet (mapSet [("n", Value.vInt 1)] "duration" (.vInt (4 - 1)))
        "end_time" (.vInt 4)) "duration" = some (.vInt (4 - 1)) ∧
    (TriggerSpan (α := Nat) "sp" []
        (.returns 7 none (some [("n", Value.vInt 1)]) []) 1 4 0 "").2
      = SpanOutcome.normal 7 none :=
  ⟨by decide,
   (triggerSpan_normal_path Nat "sp" [] 7 none [("n", Value.vInt 1)] [] 1 4 0 ""
      (by decide)).2.1,
   (triggerSpan_normal_path Nat "sp" [] 7 none [("n", Value.vInt 1)] [] 1 4 0 ""
      (by decide)).2.2.2.2.2.1⟩

/-! ## Pool invariant

An inductive invariant of the pool transition system: once `Stop()` has
returned, the context is cancelled and every worker has exited; and every
job a worker has picked up is either completed or still held by a running
worker. -/

def PoolInv (s : PoolState) : Prop :=
  (s.stopReturned = true → s.cancelled = true ∧
    ∀ (i : Nat) (w : WStatus), s.workers[i]? = some w → w = WStatus.exited) ∧
  (∀ j, j ∈ s.started →
    j ∈ s.completed ∨ ∃ i : Nat, s.workers[i]? = some (WStatus.running j))

theorem poolInv_init (cap n : Nat) : PoolInv (initPool cap n) := by
  constructor
  · intro h
    simp [initPool] at h
  · intro j hj
    simp [initPool] at hj

theorem parkedIdx_spec (ws : List WStatus) (i : Nat) (h : parkedIdx ws = some i) :
    ws[i]? = some WStatus.parked := by
  unfold parkedIdx at h
  obtain ⟨hlt, hp, _⟩ := List.findIdx?_eq_some_iff_getElem.mp h
  have he : ws[i] = WStatus.parked := by simpa using hp
  exact List.getElem?_eq_some_iff.mpr ⟨hlt, he⟩

theorem poolInv_step {outcome : JobId → JobOutcome} {s s2 : PoolState}
    (hinv : PoolInv s) (hstep : Step outcome s s2) : PoolInv s2 := by
  obtain ⟨hA, hB⟩ := hinv
  cases hstep with
  | submit j =>
      unfold Submit
      split
      · exact ⟨hA, hB⟩
      · split
        · next i heq =>
            have hp : s.workers[i]? = some WStatus.parked := parkedIdx_spec s.workers i heq
            have hlen : i < s.workers.length := (List.getElem?_eq_some_iff.mp hp).1
            constructor
            · intro hsr
              exact absurd ((hA hsr).2 i _ hp) (by simp)
            · intro j2 hj2
              rw [List.mem_append] at hj2
              rcases hj2 with hj2 | hj2
              · rcases hB j2 hj2 with hcomp | ⟨k, hk⟩
                · exact Or.inl hcomp
                · have hki : i ≠ k := by
                    intro he
                    subst he
                    rw [hp] at hk
                    simp at hk
                  refine Or.inr ⟨k, ?_⟩
                  show (s.workers.set i (WStatus.running j))[k]? = _
                  rw [List.getElem?_set_ne hki]
                  exact hk
              · have hjj : j2 = j := by simpa using hj2
                subst hjj
                refine Or.inr ⟨i, ?_⟩
                show (s.workers.set i (WStatus.running j2))[i]? = _
                rw [List.getElem?_set_self hlen]
        · split
          · exact ⟨hA, hB⟩
          · exact ⟨hA, hB⟩
  | cancel =>
      exact ⟨fun hsr => ⟨rfl, (hA hsr).2⟩, hB⟩
  | workerPark i h hq hc =>
      constructor
      · intro hsr
        exact absurd ((hA hsr).2 i _ h) (by simp)
      · intro j hj
        rcases hB j hj with hcomp | ⟨k, hk⟩
        · exact Or.inl hcomp
        · have hki : i ≠ k := by
            intro he
            subst he
            rw [h] at hk
            simp at hk
          refine Or.inr ⟨k, ?_⟩
          show (s.workers.set i WStatus.parked)[k]? = _
          rw [List.getElem?_set_ne hki]
          exact hk
  | workerWake i h hc =>
      constructor
      · intro hsr
        exact absurd ((hA hsr).2 i _ h) (by simp)
      · intro j hj
        rcases hB j hj with hcomp | ⟨k, hk⟩
        · exact Or.inl hcomp
        · have hki : i ≠ k := by
            intro he
            subst he
            rw [h] at hk
            simp at hk
          refine Or.inr ⟨k, ?_⟩
          show (s.workers.set i WStatus.exited)[k]? = _
          rw [List.getElem?_set_ne hki]
          exact hk
  | workerExit i h hc =>
      constructor
      · intro hsr
        exact absurd ((hA hsr).2 i _ h) (by simp)
      · intro j hj
        rcases hB j hj with hcomp | ⟨k, hk⟩
        · exact Or.inl hcomp
        · have hki : i ≠ k := by
            intro he
            subst he
            rw [h] at hk
            simp at hk
          refine Or.inr ⟨k, ?_⟩
          show (s.workers.set i WStatus.exited)[k]? = _
          rw [List.getElem?_set_ne hki]
          exact hk
  | workerTake i j rest h hq =>
      constructor
      · intro hsr
        exact absurd ((hA hsr).2 i _ h) (by simp)
      · intro j2 hj2
        rw [List.mem_append] at hj2
        rcases hj2 with hj2 | hj2
        · rcases hB j2 hj2 with hcomp | ⟨k, hk⟩
          · exact Or.inl hcomp
          · have hki : i ≠ k := by
              intro he
              subst he
              rw [h] at hk
              simp at hk
            refine Or.inr ⟨k, ?_⟩
            show (s.workers.set i (WStatus.running j))[k]? = _
            rw [List.getElem?_set_ne hki]
            exact hk
        · have hjj : j2 = j := by simpa using hj2
          subst hjj
          have hlen : i < s.workers.length := (List.getElem?_eq_some_iff.mp h).1
          refine Or.inr ⟨i, ?_⟩
          show (s.workers.set i (WStatus.running j2))[i]? = _
          rw [List.getElem?_set_self hlen]
  | workerFinish i j h =>
      constructor
      · intro hsr
        exact absurd ((hA hsr).2 i _ h) (by simp)
      · intro j2 hj2
        rcases hB j2 hj2 with hcomp | ⟨k, hk⟩
        · exact Or.inl (List.mem_append_left _ hcomp)
        · by_cases hki : k = i
          · subst hki
            rw [h] at hk
            have hjj : j = j2 := by simpa using hk
            subst hjj
            exact Or.inl (List.mem_append_right _ (by simp))
          · refine Or.inr ⟨k, ?_⟩
            show (s.workers.set i _)[k]? = _
            rw [List.getElem?_set_ne (fun he => hki he.symm)]
            exact hk
  | stopReturn hc hall =>
      exact ⟨fun _ => ⟨hc, hall⟩, hB⟩

theorem poolInv_reach {outcome : JobId → JobOutcome} {s : PoolState} (cap n : Nat)
    (h : Reach outcome (initPool cap n) s) : PoolInv s := by
  replace h : Relation.ReflTransGen (Step outcome) (initPool cap n) s := h
  induction h with
  | refl => exact poolInv_init cap n
  | tail hr hstep ih => exact poolInv_step ih hstep

/-! ## A concrete execution of Stop that strands a queued job

One worker, buffer capacity 1: a job is accepted into the queue, `Stop()`
cancels the context, the worker's select takes the `ctx.Done()` branch and
exits without draining the queue, and `wg.Wait()` returns. -/

/-- A job environment in which every job body returns normally. -/
def outcome0 : JobId → JobOutcome := fun _ => .ok

def stopEx0 : PoolState := initPool 1 1

def stopEx1 : PoolState := (Submit stopEx0 0).2

def stopEx2 : PoolState := { stopEx1 with cancelled := true }

def stopEx3 : PoolState := { stopEx2 with workers := stopEx2.workers.set 0 .exited }

def stopEx4 : PoolState := { stopEx3 with stopReturned := true }

theorem reach_stopEx4 : Reach outcome0 stopEx0 stopEx4 := by
  have h1 : Step outcome0 stopEx0 stopEx1 := Step.submit stopEx0 0
  have h2 : Step outcome0 stopEx1 stopEx2 := Step.cancel stopEx1
  have h3 : Step outcome0 stopEx2 stopEx3 :=
    Step.workerExit stopEx2 0 rfl rfl
  have h4 : Step outcome0 stopEx3 stopEx4 := by
    refine Step.stopReturn stopEx3 rfl ?_
    intro i w hw
    rw [show stopEx3.workers = [WStatus.exited] from rfl] at hw
    cases i with
    | zero => exact (Option.some.inj hw).symm
    | succ k => simp at hw
  exact (((Relation.ReflTransGen.refl.tail h1).tail h2).tail h3).tail h4

/-- C1 counterexample: it is not the case that whenever stop() has
returned every task accepted by submit has completed; in the one-worker
trace above, job 0 was accepted (submit returned true) but stop() returns
with the job still in the queue, never executed. -/
theorem stop_leaves_queued_job_unexecuted :
    ¬ (∀ (outcome : JobId → JobOutcome) (cap n : Nat) (s : PoolState),
        Reach outcome (initPool cap n) s → s.stopReturned = true →
        ∀ j ∈ s.accepted, j ∈ s.completed) := by
  intro hclaim
  have h0 : (0 : JobId) ∈ stopEx4.accepted := by decide
  have hcon := hclaim outcome0 1 1 stopEx4 reach_stopEx4 rfl 0 h0
  exact absurd hcon (by decide)

/-- C1 (amended): stop() returns only after every worker has exited and
every task a worker picked up has run to completion — no accepted task is
abandoned mid-execution; accepted tasks still sitting in the queue when
stop() is invoked, however, may be left unexecuted. -/
theorem stop_waits_for_started_tasks (outcome : JobId → JobOutcome) (cap n : Nat)
    (s : PoolState) (hr : Reach outcome (initPool cap n) s)
    (hstop : s.stopReturned = true) :
    (∀ (i : Nat) (w : WStatus), s.workers[i]? = some w → w = WStatus.exited) ∧
    (∀ j ∈ s.started, j ∈ s.completed) := by
  have hinv := poolInv_reach cap n hr
  refine ⟨(hinv.1 hstop).2, fun j hj => ?_⟩
  rcases hinv.2 j hj with hcomp | ⟨i, hi⟩
  · exact hcomp
  · exact absurd ((hinv.1 hstop).2 i _ hi) (by simp)

theorem stop_waits_for_started_tasks_witness :
    stopEx4.stopReturned = true ∧
    ((∀ (i : Nat) (w : WStatus), stopEx4.workers[i]? = some w → w = WStatus.exited) ∧
     (∀ j ∈ stopEx4.started, j ∈ stopEx4.completed)) :=
  ⟨rfl, stop_waits_for_started_tasks outcome0 1 1 stopEx4 reach_stopEx4 rfl⟩

/-! ## A rendezvous submission on an unbuffered channel

Worker count 1, buffer capacity 0 (the `ConcurrentBufferSize` default):
the worker parks in its select on the jobs channel receive, and a
subsequent `Submit` succeeds by direct handoff even though the queue is
trivially at capacity. -/

def rendezvousEx : PoolState := { initPool 0 1 with workers := [WStatus.parked] }

theorem reach_rendezvousEx : Reach outcome0 (initPool 0 1) rendezvousEx :=
  Relation.ReflTransGen.single
    (Step.workerPark (initPool 0 1) 0 rfl rfl rfl)

/-- C5 counterexample: it is not the case that submit returns false
whenever the queue is at capacity: with buffer capacity 0 and a worker
parked on the jobs channel receive, the select send succeeds by direct
handoff and Submit returns true, although the capacity-0 queue is at
capacity. -/
theorem submit_at_capacity_rendezvous :
    ¬ (∀ (outcome : JobId → JobOutcome) (cap n : Nat) (s : PoolState) (j : JobId),
        Reach outcome (initPool cap n) s →
        s.cancelled = true ∨ s.cap ≤ s.queue.length →
        (Submit s j).1 = false) := by
  intro hclaim
  have h := hclaim outcome0 0 1 rendezvousEx 5 reach_rendezvousEx (Or.inr (by decide))
  exact absurd h (by decide)

/-- C5 (amended): submit returns false without enqueuing whenever the
pool has begun stopping (its context is cancelled); when no worker is
parked on the jobs channel receive it also returns false whenever the
queue is at capacity (with capacity 0 a submission can instead succeed by
direct handoff to a parked worker); and after stop() has returned, every
subsequent submit call returns false. -/
theorem submit_rejects_when_stopping_or_full (s : PoolState) (j : JobId) :
    (s.cancelled = true → (Submit s j).1 = false ∧ (Submit s j).2 = s) ∧
    (parkedIdx s.workers = none → s.cap ≤ s.queue.length →
        (Submit s j).1 = false ∧ (Submit s j).2 = s) ∧
    (∀ (outcome : JobId → JobOutcome) (cap n : Nat),
        Reach outcome (initPool cap n) s → s.stopReturned = true →
        (Submit s j).1 = false ∧ (Submit s j).2 = s) := by
  refine ⟨fun hc => ?_, fun hpark hq => ?_, fun outcome cap n hr hstop => ?_⟩
  · simp [Submit, hc]
  · have hlt : ¬ (s.queue.length < s.cap) := by omega
    by_cases hc : s.cancelled <;> simp [Submit, hc, hpark, hlt]
  · have hc : s.cancelled = true := ((poolInv_reach cap n hr).1 hstop).1
    simp [Submit, hc]

theorem submit_rejects_when_stopping_or_full_witness :
    stopEx4.stopReturned = true ∧
    ((Submit stopEx4 7).1 = false ∧ (Submit stopEx4 7).2 = stopEx4) :=
  ⟨rfl, (submit_rejects_when_stopping_or_full stopEx4 7).2.2 outcome0 1 1
     reach_stopEx4 rfl⟩

/-! ## Fault containment fixtures -/

/-- A resolved binding whose callback body panics. -/
def exPanicHandler : ExecutableEvent :=
  { id := "h", behaviour := .panics (.vStr "boom"), config := .vNil }

/-- A pool state with one worker mid-execution of job 0 and job 1 queued. -/
def exRunState : PoolState :=
  { initPool 2 1 with workers := [.running 0], queue := [1] }

/-- A pool state with one idle worker and job 1 queued. -/
def exIdleState : PoolState := { initPool 2 1 with queue := [1] }

/-- A job environment in which job 0 panics and every other job is fine. -/
def outcomePanic : JobId → JobOutcome := fun j => if j = 0 then .panics 9 else .ok

/-- C4: a task or handler callback that panics is contained at the
execution boundary: triggerEvent never returns an error to its caller,
executeHandlerSafely recovers the fault instead of propagating it, a
worker that finishes a panicking job survives (returns to idle when the
pool is not stopping, with the fault recorded by the recover handler), and
a subsequently queued unrelated task can still be picked up and run to
completion. -/
theorem fault_containment :
    (∀ (cfg : TelemetryConfig) (reg : RegMap) (event : String) (m d : GoMap),
        (TriggerEvent cfg reg event m d).error = none) ∧
    (∀ (e : ExecutableEvent) (event : String) (m d : GoMap) (f : Value),
        e.behaviour = .panics f →
        (executeHandlerSafely e event m d).recovered = some f) ∧
    (∀ (outcome : JobId → JobOutcome) (s : PoolState) (i : Nat) (j : JobId) (f : Nat),
        s.workers[i]? = some (WStatus.running j) → s.cancelled = false →
        outcome j = .panics f →
        ∃ s2, Step outcome s s2 ∧ s2.workers[i]? = some WStatus.idle ∧
          s2.completed = s.completed ++ [j] ∧ s2.faults = s.faults ++ [(j, f)] ∧
          s2.queue = s.queue ∧ s2.cancelled = false) ∧
    (∀ (outcome : JobId → JobOutcome) (s : PoolState) (i : Nat) (j2 : JobId)
        (rest : List JobId),
        s.workers[i]? = some WStatus.idle → s.queue = j2 :: rest →
        ∃ s2, Reach outcome s s2 ∧ j2 ∈ s2.completed) := by
  refine ⟨fun cfg reg event m d => ?_, fun e event m d f hb => ?_, ?_, ?_⟩
  · unfold TriggerEvent executeEventFuncs
    by_cases h0 : (getEventFunc (reg.map (fun p => p.2)) event).length = 0 <;>
      by_cases hc : cfg.AllowConcurrentExecution <;> simp [h0, hc]
  · simp [executeHandlerSafely, hb]
  · intro outcome s i j f hrun hcanc hout
    have hlen : i < s.workers.length := (List.getElem?_eq_some_iff.mp hrun).1
    refine ⟨_, Step.workerFinish s i j hrun, ?_, rfl, ?_, rfl, hcanc⟩
    · show (s.workers.set i (if s.cancelled then WStatus.exited else WStatus.idle))[i]?
        = some WStatus.idle
      rw [List.getElem?_set_self hlen, hcanc]
      rfl
    · show s.faults ++ _ = s.faults ++ [(j, f)]
      rw [hout]
  · intro outcome s i j2 rest hidle hq
    have hlen : i < s.workers.length := (List.getElem?_eq_some_iff.mp hidle).1
    refine ⟨_, Relation.ReflTransGen.tail
        (Relation.ReflTransGen.single (Step.workerTake s i j2 rest hidle hq))
        (Step.workerFinish _ i j2 ?_), ?_⟩
    · show (s.workers.set i (WStatus.running j2))[i]? = some (WStatus.running j2)
      rw [List.getElem?_set_self hlen]
    · simp

theorem fault_containment_witness :
    (exPanicHandler.behaviour = .panics (.vStr "boom") ∧
     (executeHandlerSafely exPanicHandler "a.b" [] []).recovered
       = some (.vStr "boom")) ∧
    (∃ s2, Step outcomePanic exRunState s2 ∧ s2.workers[0]? = some WStatus.idle ∧
       s2.completed = exRunState.completed ++ [0] ∧
       s2.faults = exRunState.faults ++ [(0, 9)] ∧
       s2.queue = exRunState.queue ∧ s2.cancelled = false) ∧
    (∃ s2, Reach outcomePanic exIdleState s2 ∧ 1 ∈ s2.completed) :=
  ⟨⟨rfl, fault_containment.2.1 exPanicHandler "a.b" [] [] (.vStr "boom") rfl⟩,
   fault_containment.2.2.1 outcomePanic exRunState 0 0 9 rfl rfl rfl,
   fault_containment.2.2.2 outcomePanic exIdleState 0 1 [] rfl rfl⟩

end GoPulse
